import Mathlib

/-!
Verification of the CUDA image-copy dispatcher in
`Non PowerShell Tools/kernelforpictures.cpp`.

The source consists of a device kernel `processImageKernel` (one thread per
pixel coordinate, guarded by `x < width && y < height`, copying the three
RGB channel bytes of its pixel from `input` to `output` at the `int`
offsets `3 * (y * width + x) + c`) and a host wrapper `processImage`
(allocate two device buffers of `width * height * 3` bytes — the byte
count evaluated in `int` — copy the host input to the device, launch a
grid of 16 x 16 thread blocks with grid dimensions
`((width + 15) / 16, (height + 15) / 16)`, copy the device output back to
the host, free both device buffers).

The embedding models byte buffers as `List Nat` and device memory as a
pair of such buffers.  All arithmetic the source performs in C `int` —
the byte count `width * height * 3` and the kernel offsets
`3 * (y * width + x) + c` — is modelled by `int32`, the reduction of the
mathematical value into the two-s-complement range `[-2 ^ 31, 2 ^ 31)`.
When the `int` byte count equals the mathematical buffer size
(equivalently `width * height * 3 < 2 ^ 31`), no kernel offset wraps
either, and one call is the straightforward buffer transform computed by
`runGrid`.  Otherwise the source passes a wrapped (negative or truncated)
byte count to `cudaMalloc` and `cudaMemcpy`, the ignored failures leave
the device buffers invalid, and the kernel accesses memory outside any
valid allocation — undefined behavior, modelled by `processImage`
returning `none`.

Host-side sequencing of device operations (the default CUDA stream
executes enqueued operations in order) is modelled by the ordered trace
`dispatchTrace`, which is independent of the data semantics.
-/

/-- Block-size constant of the launch: `dim3 dimBlock(16, 16)` uses 16 in
both dimensions. -/
def blockDim : Nat := 16

/-- Grid dimension in one axis, from the source expression
`(width + dimBlock.x - 1) / dimBlock.x` with `dimBlock.x = 16`. -/
def ceilDiv16 (n : Nat) : Nat := (n + 16 - 1) / 16

/-- The `dimGrid` value of the source:
`dim3 dimGrid((width + 15) / 16, (height + 15) / 16)`. -/
def gridDim (width height : Nat) : Nat × Nat := (ceilDiv16 width, ceilDiv16 height)

/-- Global coordinates of the 16 x 16 threads of the block with block index
`(bx, by2)`: thread `(tx, ty)` of the block has global coordinates
`(bx * 16 + tx, by2 * 16 + ty)`, matching
`blockIdx.x * blockDim.x + threadIdx.x` in the kernel. -/
def blockThreads (bx by2 : Nat) : List (Nat × Nat) :=
  (List.range 16).flatMap fun ty =>
    (List.range 16).map fun tx => (bx * 16 + tx, by2 * 16 + ty)

/-- All global thread coordinates generated by the launch
`processImageKernel<<<dimGrid, dimBlock>>>`: one 16 x 16 block for every
block index below `gridDim`. -/
def threadCoords (width height : Nat) : List (Nat × Nat) :=
  (List.range (gridDim width height).2).flatMap fun by2 =>
    (List.range (gridDim width height).1).flatMap fun bx =>
      blockThreads bx by2

/-- Value of a C `int` expression with two-s-complement wraparound: the
mathematical value reduced modulo `2 ^ 32` into `[-2 ^ 31, 2 ^ 31)`.
Because wraparound is a ring homomorphism modulo `2 ^ 32`, reducing the
mathematical value of a compound expression once equals evaluating every
intermediate step in `int`. -/
def int32 (n : Nat) : Int :=
  if n % 2 ^ 32 < 2 ^ 31 then ((n % 2 ^ 32 : Nat) : Int)
  else ((n % 2 ^ 32 : Nat) : Int) - 2 ^ 32

/-- The byte count `width * height * 3` passed to `cudaMalloc` and
`cudaMemcpy`, evaluated as the source evaluates it: in 32-bit signed `int`
arithmetic. -/
def byteCountArg (width height : Nat) : Int :=
  int32 (width * height * 3)

/-- The kernel's address expression `3 * (y * width + x) + c` for channel
`c`, evaluated as the source evaluates it: in 32-bit signed `int`
arithmetic. -/
def offsetC (width x y c : Nat) : Int :=
  int32 (3 * (y * width + x) + c)

/-- Device memory during one dispatch: the contents of the two device
buffers `d_input` and `d_output`. -/
structure DevState where
  dIn : List Nat
  dOut : List Nat
deriving DecidableEq

/-- Write one byte of a device buffer at a signed `int` offset.  An offset
outside the buffer (negative, or not below the length) is an out-of-bounds
access, undefined behavior in the source; the model makes it inert, which
no theorem relies on: every dispatch that can reach such an access returns
`none`. -/
def setInt (l : List Nat) (o : Int) (v : Nat) : List Nat :=
  if 0 ≤ o then l.set o.toNat v else l

/-- Read one byte of a device buffer at a signed `int` offset; out-of-range
reads (undefined behavior in the source) are modelled as 0, which no
theorem relies on. -/
def getInt (l : List Nat) (o : Int) : Nat :=
  if 0 ≤ o then l.getD o.toNat 0 else 0

/-- One thread of `processImageKernel` at global coordinates `(x, y)`:
under the guard `x < width && y < height` it copies the three bytes at the
`int`-evaluated offsets `3 * (y * width + x) + 0, + 1, + 2` from the
device input buffer to the device output buffer; otherwise it does
nothing. -/
def processImageKernel (width height x y : Nat) (s : DevState) : DevState :=
  if x < width ∧ y < height then
    { dIn := s.dIn
      dOut := setInt (setInt (setInt s.dOut
                  (offsetC width x y 0) (getInt s.dIn (offsetC width x y 0)))
                (offsetC width x y 1) (getInt s.dIn (offsetC width x y 1)))
              (offsetC width x y 2) (getInt s.dIn (offsetC width x y 2)) }
  else s

/-- The complete kernel launch: every thread of the grid runs
`processImageKernel`.  The threads write pairwise disjoint locations, so
running them in list order is a faithful model of the parallel launch. -/
def runGrid (width height : Nat) (s : DevState) : DevState :=
  (threadCoords width height).foldl
    (fun d p => processImageKernel width height p.1 p.2 d) s

/-- Host memory around one call: the caller-allocated input and output
buffers. -/
structure HostState where
  input : List Nat
  output : List Nat
deriving DecidableEq

/-- The host wrapper `processImage`.  The `int` byte count `byteCountArg`
is what the source passes to both `cudaMalloc` calls and both `cudaMemcpy`
calls.  When it equals the mathematical buffer size (equivalently
`width * height * 3 < 2 ^ 31`), the call stages that many bytes of the
host input to the device input buffer, runs the grid (the device output
buffer starts uninitialised, modelled as zero-filled of the allocated
size), and copies that many bytes of the device output back over the
start of the host output buffer.  Otherwise the source hands a wrapped —
negative, or truncated — byte count to allocation and both copies, the
failures are ignored, and the kernel then accesses memory outside any
valid allocation: undefined behavior, with no defined result (`none`). -/
def processImage (width height : Nat) (s : HostState) : Option HostState :=
  let nC := byteCountArg width height
  if nC = ((width * height * 3 : Nat) : Int) then
    let n := nC.toNat
    let dev := runGrid width height ⟨s.input.take n, List.replicate n 0⟩
    some { input := s.input
           output := dev.dOut.take n ++ s.output.drop n }
  else none

/-- The byte-sequence contract `dispatch(input, width, height)`: call
`processImage` with a caller-allocated output buffer of
`width * height * 3` bytes and return that buffer, when the call has a
defined result. -/
def dispatch (input : List Nat) (width height : Nat) : Option (List Nat) :=
  Option.map HostState.output
    (processImage width height ⟨input, List.replicate (width * height * 3) 0⟩)

/-- Buffer position `i` is accessed by the thread at global coordinates
`(x, y)`: the guard `x < width && y < height` holds and the
`int`-evaluated offset of one of the three channels equals `i`.  A wrapped
negative offset addresses no buffer position. -/
def covers (width height x y i : Nat) : Prop :=
  x < width ∧ y < height ∧
    (offsetC width x y 0 = (i : Int) ∨ offsetC width x y 1 = (i : Int) ∨
      offsetC width x y 2 = (i : Int))

instance decCovers (width height x y i : Nat) : Decidable (covers width height x y i) := by
  unfold covers
  exact inferInstance

/-- The signed `int` offsets at which the thread at global coordinates
`(x, y)` reads the device input buffer and writes the device output
buffer: the three channel offsets under the guard, nothing otherwise. -/
def accessedOffsets (width height x y : Nat) : List Int :=
  if x < width ∧ y < height then
    [offsetC width x y 0, offsetC width x y 1, offsetC width x y 2]
  else []

/-- The device operations `processImage` issues, in program order. -/
inductive DevOp where
  | mallocIn : DevOp
  | mallocOut : DevOp
  | copyH2D : DevOp
  | kernelExec : Nat → Nat → DevOp
  | copyD2H : DevOp
  | freeIn : DevOp
  | freeOut : DevOp
deriving DecidableEq

/-- The ordered trace of device operations of one `processImage` call,
following the statement order of the source; the default CUDA stream
executes these operations in exactly this order. -/
def dispatchTrace (width height : Nat) : List DevOp :=
  [DevOp.mallocIn, DevOp.mallocOut, DevOp.copyH2D]
    ++ (threadCoords width height).map (fun p => DevOp.kernelExec p.1 p.2)
    ++ [DevOp.copyD2H, DevOp.freeIn, DevOp.freeOut]

/-- A host statement issuing one device operation: `unchecked` discards the
status the device call returns (the style of the source, which ignores every
`cudaError_t`); `checked` would stop execution on a failing status. -/
inductive Stmt where
  | unchecked : DevOp → Stmt
  | checked : DevOp → Stmt

/-- Run a statement list; `outcome k` tells whether the `k`-th device call
succeeds.  An `unchecked` statement always continues; a `checked` statement
stops after a failing call.  Returns the operations actually issued. -/
def runStmts (outcome : Nat → Bool) : Nat → List Stmt → List DevOp
  | _, [] => []
  | k, Stmt.unchecked op :: rest => op :: runStmts outcome (k + 1) rest
  | k, Stmt.checked op :: rest =>
      if outcome k then op :: runStmts outcome (k + 1) rest else [op]

/-- The body of `processImage` as a statement list: every device call is
issued with its result discarded. -/
def processImageProg (width height : Nat) : List Stmt :=
  (dispatchTrace width height).map Stmt.unchecked

/-! ### Grid coverage lemmas -/

theorem le_ceilDiv16_mul (n : Nat) : n ≤ ceilDiv16 n * 16 := by
  have h := Nat.div_add_mod (n + 15) 16
  have h2 : (n + 15) % 16 < 16 := Nat.mod_lt _ (by norm_num)
  unfold ceilDiv16
  omega

theorem ceilDiv16_mul_lt (n : Nat) : ceilDiv16 n * 16 < n + 16 := by
  have h := Nat.div_add_mod (n + 15) 16
  have h2 : (n + 15) % 16 < 16 := Nat.mod_lt _ (by norm_num)
  unfold ceilDiv16
  omega

theorem mem_blockThreads {p : Nat × Nat} {bx by2 : Nat} :
    p ∈ blockThreads bx by2 ↔
      bx * 16 ≤ p.1 ∧ p.1 < bx * 16 + 16 ∧ by2 * 16 ≤ p.2 ∧ p.2 < by2 * 16 + 16 := by
  obtain ⟨a, b⟩ := p
  unfold blockThreads
  simp only [List.mem_flatMap, List.mem_map, List.mem_range, Prod.mk.injEq]
  constructor
  · rintro ⟨ty, hty, tx, htx, h1, h2⟩
    omega
  · rintro ⟨h1, h2, h3, h4⟩
    exact ⟨b - by2 * 16, by omega, a - bx * 16, by omega, by omega, by omega⟩

theorem mem_threadCoords {p : Nat × Nat} {width height : Nat} :
    p ∈ threadCoords width height ↔
      p.1 < ceilDiv16 width * 16 ∧ p.2 < ceilDiv16 height * 16 := by
  unfold threadCoords gridDim
  simp only [List.mem_flatMap, List.mem_range, mem_blockThreads]
  constructor
  · rintro ⟨by2, hby, bx, hbx, h⟩
    omega
  · rintro ⟨h1, h2⟩
    exact ⟨p.2 / 16, by omega, p.1 / 16, by omega, by omega⟩

theorem nodup_blockThreads (bx by2 : Nat) : (blockThreads bx by2).Nodup := by
  unfold blockThreads
  rw [List.nodup_flatMap]
  refine ⟨fun ty _ => ?_, ?_⟩
  · refine (List.nodup_range 16).map ?_
    intro a b hab
    simpa using hab
  · refine (List.nodup_range 16).imp ?_
    intro ty1 ty2 hne
    intro a ha hb
    simp only [List.mem_map, List.mem_range] at ha hb
    obtain ⟨tx1, _, rfl⟩ := ha
    obtain ⟨tx2, _, h2⟩ := hb
    have := congrArg Prod.snd h2
    simp at this
    omega

theorem nodup_threadCoords (width height : Nat) : (threadCoords width height).Nodup := by
  unfold threadCoords
  rw [List.nodup_flatMap]
  refine ⟨fun by2 _ => ?_, ?_⟩
  · rw [List.nodup_flatMap]
    refine ⟨fun bx _ => nodup_blockThreads bx by2, ?_⟩
    refine (List.nodup_range _).imp ?_
    intro bx1 bx2 hne a ha hb
    rw [mem_blockThreads] at ha hb
    omega
  · refine (List.nodup_range _).imp ?_
    intro by1 by2 hne a ha hb
    simp only [List.mem_flatMap, List.mem_range, mem_blockThreads] at ha hb
    omega

/-! ### 32-bit arithmetic lemmas -/

theorem int32_lt (n : Nat) : int32 n < 2 ^ 31 := by
  unfold int32
  split
  · omega
  · have h2 : n % 2 ^ 32 < 2 ^ 32 := Nat.mod_lt _ (by norm_num)
    omega

theorem int32_of_lt {n : Nat} (h : n < 2 ^ 31) : int32 n = (n : Int) := by
  unfold int32
  rw [Nat.mod_eq_of_lt (by omega)]
  rw [if_pos h]

theorem byteCountArg_eq_iff (width height : Nat) :
    byteCountArg width height = ((width * height * 3 : Nat) : Int) ↔
      width * height * 3 < 2 ^ 31 := by
  constructor
  · intro h
    have h2 := int32_lt (width * height * 3)
    unfold byteCountArg at h
    rw [h] at h2
    exact_mod_cast h2
  · intro h
    unfold byteCountArg
    exact int32_of_lt h

theorem byteCountArg_toNat {width height : Nat} (h : width * height * 3 < 2 ^ 31) :
    (byteCountArg width height).toNat = width * height * 3 := by
  rw [(byteCountArg_eq_iff width height).mpr h]
  exact Int.toNat_ofNat _

theorem pixel_offset_lt (width height x y c : Nat) (hx : x < width) (hy : y < height)
    (hc : c < 3) : 3 * (y * width + x) + c < width * height * 3 := by
  have hb : y * width + x < width * height := by
    calc y * width + x < y * width + width := by omega
    _ = (y + 1) * width := by ring
    _ ≤ height * width := Nat.mul_le_mul_right width (by omega)
    _ = width * height := Nat.mul_comm height width
  omega

theorem offsetC_eq_of_lt {width height x y c : Nat} (hb : width * height * 3 < 2 ^ 31)
    (hx : x < width) (hy : y < height) (hc : c < 3) :
    offsetC width x y c = ((3 * (y * width + x) + c : Nat) : Int) :=
  int32_of_lt (Nat.lt_trans (pixel_offset_lt width height x y c hx hy hc) hb)

theorem covers_iff_of_lt {width height x y i : Nat} (hb : width * height * 3 < 2 ^ 31) :
    covers width height x y i ↔
      x < width ∧ y < height ∧
        (i = 3 * (y * width + x) ∨ i = 3 * (y * width + x) + 1 ∨
          i = 3 * (y * width + x) + 2) := by
  unfold covers
  constructor
  · rintro ⟨hx, hy, hcase⟩
    refine ⟨hx, hy, ?_⟩
    rcases hcase with h | h | h
    · rw [offsetC_eq_of_lt hb hx hy (by norm_num)] at h
      have h4 : 3 * (y * width + x) + 0 = i := by exact_mod_cast h
      omega
    · rw [offsetC_eq_of_lt hb hx hy (by norm_num)] at h
      have h4 : 3 * (y * width + x) + 1 = i := by exact_mod_cast h
      omega
    · rw [offsetC_eq_of_lt hb hx hy (by norm_num)] at h
      have h4 : 3 * (y * width + x) + 2 = i := by exact_mod_cast h
      omega
  · rintro ⟨hx, hy, hcase⟩
    refine ⟨hx, hy, ?_⟩
    rcases hcase with h | h | h
    · left
      rw [offsetC_eq_of_lt hb hx hy (by norm_num), h]
      norm_num
    · right; left
      rw [offsetC_eq_of_lt hb hx hy (by norm_num), h]
    · right; right
      rw [offsetC_eq_of_lt hb hx hy (by norm_num), h]

theorem covers_lt_two_pow {width height x y i : Nat}
    (hc : covers width height x y i) : i < 2 ^ 31 := by
  obtain ⟨-, -, hcase⟩ := hc
  unfold offsetC at hcase
  rcases hcase with h | h | h
  · have h1 := int32_lt (3 * (y * width + x) + 0)
    rw [h] at h1
    exact_mod_cast h1
  · have h1 := int32_lt (3 * (y * width + x) + 1)
    rw [h] at h1
    exact_mod_cast h1
  · have h1 := int32_lt (3 * (y * width + x) + 2)
    rw [h] at h1
    exact_mod_cast h1

/-! ### Kernel step lemmas -/

theorem setInt_length (l : List Nat) (o : Int) (v : Nat) :
    (setInt l o v).length = l.length := by
  unfold setInt
  split
  · simp
  · rfl

theorem setInt_getD_ne (l : List Nat) (o : Int) (v : Nat) (i : Nat)
    (hne : o ≠ (i : Int)) : (setInt l o v).getD i 0 = l.getD i 0 := by
  unfold setInt
  split
  · rename_i h0
    have hni : o.toNat ≠ i := by
      intro he
      apply hne
      rw [← he, Int.toNat_of_nonneg h0]
    simp only [List.getD_eq_getElem?_getD]
    rw [List.getElem?_set_ne hni]
  · rfl

theorem setInt_getD_eq (l : List Nat) (o : Int) (v : Nat) (i : Nat)
    (ho : o = (i : Int)) (hl : i < l.length) : (setInt l o v).getD i 0 = v := by
  unfold setInt
  rw [ho, if_pos (Int.ofNat_nonneg i), Int.toNat_ofNat]
  simp only [List.getD_eq_getElem?_getD]
  rw [List.getElem?_set_self (by simpa using hl)]
  rfl

theorem getInt_eq (l : List Nat) (o : Int) (i : Nat) (ho : o = (i : Int)) :
    getInt l o = l.getD i 0 := by
  unfold getInt
  rw [ho, if_pos (Int.ofNat_nonneg i), Int.toNat_ofNat]

theorem kernel_dIn (width height x y : Nat) (s : DevState) :
    (processImageKernel width height x y s).dIn = s.dIn := by
  unfold processImageKernel
  split <;> rfl

theorem kernel_dOut_length (width height x y : Nat) (s : DevState) :
    (processImageKernel width height x y s).dOut.length = s.dOut.length := by
  unfold processImageKernel
  split
  · simp [setInt_length]
  · rfl

theorem kernel_guard_ge (width height x y : Nat) (s : DevState)
    (h : ¬ (x < width ∧ y < height)) :
    processImageKernel width height x y s = s := by
  unfold processImageKernel
  split
  · exact absurd (by assumption) h
  · rfl

theorem kernel_getD_not_covers (width height x y i : Nat) (s : DevState)
    (h : ¬ covers width height x y i) :
    (processImageKernel width height x y s).dOut.getD i 0 = s.dOut.getD i 0 := by
  unfold processImageKernel
  split
  · rename_i hg
    have h0 : offsetC width x y 0 ≠ (i : Int) := fun he => h ⟨hg.1, hg.2, Or.inl he⟩
    have h1 : offsetC width x y 1 ≠ (i : Int) :=
      fun he => h ⟨hg.1, hg.2, Or.inr (Or.inl he)⟩
    have h2 : offsetC width x y 2 ≠ (i : Int) :=
      fun he => h ⟨hg.1, hg.2, Or.inr (Or.inr he)⟩
    rw [setInt_getD_ne _ _ _ _ h2, setInt_getD_ne _ _ _ _ h1, setInt_getD_ne _ _ _ _ h0]
  · rfl

theorem kernel_getD_covers (width height x y i : Nat) (s : DevState)
    (hb : width * height * 3 < 2 ^ 31)
    (hc : covers width height x y i) (hlen : i < s.dOut.length) :
    (processImageKernel width height x y s).dOut.getD i 0 = s.dIn.getD i 0 := by
  obtain ⟨hx, hy, hcase⟩ := hc
  unfold processImageKernel
  rw [if_pos ⟨hx, hy⟩]
  have e0 := offsetC_eq_of_lt hb hx hy (show (0 : Nat) < 3 by norm_num)
  have e1 := offsetC_eq_of_lt hb hx hy (show (1 : Nat) < 3 by norm_num)
  have e2 := offsetC_eq_of_lt hb hx hy (show (2 : Nat) < 3 by norm_num)
  rcases hcase with h | h | h
  · have hm : 3 * (y * width + x) + 0 = i := by
      rw [e0] at h
      exact_mod_cast h
    have h2ne : offsetC width x y 2 ≠ (i : Int) := by
      rw [e2]
      intro he
      have : 3 * (y * width + x) + 2 = i := by exact_mod_cast he
      omega
    have h1ne : offsetC width x y 1 ≠ (i : Int) := by
      rw [e1]
      intro he
      have : 3 * (y * width + x) + 1 = i := by exact_mod_cast he
      omega
    rw [setInt_getD_ne _ _ _ _ h2ne, setInt_getD_ne _ _ _ _ h1ne,
      setInt_getD_eq _ _ _ _ h (by simpa [setInt_length] using hlen), getInt_eq _ _ i h]
  · have h2ne : offsetC width x y 2 ≠ (i : Int) := by
      have hm : 3 * (y * width + x) + 1 = i := by
        rw [e1] at h
        exact_mod_cast h
      rw [e2]
      intro he
      have : 3 * (y * width + x) + 2 = i := by exact_mod_cast he
      omega
    rw [setInt_getD_ne _ _ _ _ h2ne,
      setInt_getD_eq _ _ _ _ h (by simpa [setInt_length] using hlen), getInt_eq _ _ i h]
  · rw [setInt_getD_eq _ _ _ _ h (by simpa [setInt_length] using hlen), getInt_eq _ _ i h]

/-! ### Fold lemmas over the thread list -/

theorem foldl_kernel_dIn (width height : Nat) :
    ∀ (cs : List (Nat × Nat)) (s : DevState),
      (cs.foldl (fun d p => processImageKernel width height p.1 p.2 d) s).dIn = s.dIn := by
  intro cs
  induction cs with
  | nil => intro s; rfl
  | cons p rest ih =>
      intro s
      rw [List.foldl_cons, ih, kernel_dIn]

theorem foldl_kernel_dOut_length (width height : Nat) :
    ∀ (cs : List (Nat × Nat)) (s : DevState),
      (cs.foldl (fun d p => processImageKernel width height p.1 p.2 d) s).dOut.length
        = s.dOut.length := by
  intro cs
  induction cs with
  | nil => intro s; rfl
  | cons p rest ih =>
      intro s
      rw [List.foldl_cons, ih, kernel_dOut_length]

theorem foldl_kernel_getD (width height : Nat) (hb : width * height * 3 < 2 ^ 31) :
    ∀ (cs : List (Nat × Nat)) (s : DevState) (i : Nat), i < s.dOut.length →
      ((∃ p ∈ cs, covers width height p.1 p.2 i) →
        (cs.foldl (fun d p => processImageKernel width height p.1 p.2 d) s).dOut.getD i 0
          = s.dIn.getD i 0)
      ∧ ((∀ p ∈ cs, ¬ covers width height p.1 p.2 i) →
        (cs.foldl (fun d p => processImageKernel width height p.1 p.2 d) s).dOut.getD i 0
          = s.dOut.getD i 0) := by
  intro cs
  induction cs with
  | nil =>
      intro s i hi
      refine ⟨?_, ?_⟩
      · rintro ⟨p, hp, -⟩
        exact absurd hp (List.not_mem_nil p)
      · intro
        rfl
  | cons q rest ih =>
      intro s i hi
      have hstep : i < (processImageKernel width height q.1 q.2 s).dOut.length := by
        rw [kernel_dOut_length]; exact hi
      have hIn := kernel_dIn width height q.1 q.2 s
      refine ⟨?_, ?_⟩
      · rintro ⟨p, hp, hc⟩
        rw [List.foldl_cons]
        rcases Decidable.em (covers width height q.1 q.2 i) with hq | hq
        · have hval : (processImageKernel width height q.1 q.2 s).dOut.getD i 0
              = s.dIn.getD i 0 := kernel_getD_covers _ _ _ _ _ _ hb hq hi
          rcases Decidable.em (∃ r ∈ rest, covers width height r.1 r.2 i) with hr | hr
          · rw [(ih _ i hstep).1 hr, hIn]
          · push_neg at hr
            rw [(ih _ i hstep).2 hr, hval]
        · rcases List.mem_cons.mp hp with rfl | hprest
          · exact absurd hc hq
          · have hval : (processImageKernel width height q.1 q.2 s).dOut.getD i 0
                = s.dOut.getD i 0 := kernel_getD_not_covers _ _ _ _ _ _ hq
            rw [(ih _ i hstep).1 ⟨p, hprest, hc⟩, hIn]
      · intro hnone
        rw [List.foldl_cons]
        have hq : ¬ covers width height q.1 q.2 i := hnone q (List.mem_cons_self q rest)
        have hval : (processImageKernel width height q.1 q.2 s).dOut.getD i 0
            = s.dOut.getD i 0 := kernel_getD_not_covers _ _ _ _ _ _ hq
        rw [(ih _ i hstep).2 (fun r hr => hnone r (List.mem_cons_of_mem q hr)), hval]

/-- Every in-range byte index is covered by some launched thread, in the
regime where the offset arithmetic does not wrap. -/
theorem exists_covering_thread (width height i : Nat)
    (hb : width * height * 3 < 2 ^ 31) (hi : i < width * height * 3) :
    ∃ p ∈ threadCoords width height, covers width height p.1 p.2 i := by
  have hw : 0 < width := by
    rcases Nat.eq_zero_or_pos width with h | h
    · subst h; simp at hi
    · exact h
  have hh : 0 < height := by
    rcases Nat.eq_zero_or_pos height with h | h
    · subst h; simp at hi
    · exact h
  have hq3 : i / 3 < width * height := by omega
  refine ⟨((i / 3) % width, (i / 3) / width), ?_, ?_⟩
  · rw [mem_threadCoords]
    constructor
    · exact lt_of_lt_of_le (Nat.mod_lt _ hw) (le_ceilDiv16_mul width)
    · refine lt_of_lt_of_le ?_ (le_ceilDiv16_mul height)
      rw [Nat.div_lt_iff_lt_mul hw]
      exact lt_of_lt_of_le hq3 (le_of_eq (Nat.mul_comm width height))
  · rw [covers_iff_of_lt hb]
    refine ⟨Nat.mod_lt _ hw, ?_, ?_⟩
    · rw [Nat.div_lt_iff_lt_mul hw]
      exact lt_of_lt_of_le hq3 (le_of_eq (Nat.mul_comm width height))
    · have hpix : i / 3 / width * width + i / 3 % width = i / 3 := by
        rw [Nat.mul_comm]
        exact Nat.div_add_mod (i / 3) width
      have h3 := Nat.div_add_mod i 3
      have hm3 : i % 3 < 3 := Nat.mod_lt _ (by norm_num)
      rw [hpix]
      omega

/-- After the full launch, every in-range byte of the device output buffer
equals the corresponding byte of the device input buffer, in the
wrap-free regime. -/
theorem runGrid_getD (width height : Nat) (s : DevState) (i : Nat)
    (hb : width * height * 3 < 2 ^ 31)
    (hi : i < width * height * 3) (hlen : width * height * 3 ≤ s.dOut.length) :
    (runGrid width height s).dOut.getD i 0 = s.dIn.getD i 0 := by
  exact (foldl_kernel_getD width height hb (threadCoords width height) s i
    (lt_of_lt_of_le hi hlen)).1 (exists_covering_thread width height i hb hi)

/-! ### Uniqueness of the covering thread -/

theorem pixel_index_inj (width x1 y1 x2 y2 : Nat) (h1 : x1 < width) (h2 : x2 < width)
    (heq : y1 * width + x1 = y2 * width + x2) : x1 = x2 ∧ y1 = y2 := by
  have hm : (y1 * width + x1) % width = (y2 * width + x2) % width := by rw [heq]
  have hd : (y1 * width + x1) / width = (y2 * width + x2) / width := by rw [heq]
  rw [Nat.mul_comm y1 width, Nat.mul_comm y2 width] at hm hd
  rw [Nat.mul_add_mod, Nat.mul_add_mod, Nat.mod_eq_of_lt h1, Nat.mod_eq_of_lt h2] at hm
  rw [Nat.mul_add_div (by omega), Nat.mul_add_div (by omega),
    Nat.div_eq_of_lt h1, Nat.div_eq_of_lt h2] at hd
  omega

theorem covers_unique (width height : Nat) {p q : Nat × Nat} {i : Nat}
    (hb : width * height * 3 < 2 ^ 31)
    (hp : covers width height p.1 p.2 i) (hq : covers width height q.1 q.2 i) :
    p = q := by
  rw [covers_iff_of_lt hb] at hp hq
  obtain ⟨hx1, hy1, hc1⟩ := hp
  obtain ⟨hx2, hy2, hc2⟩ := hq
  have ha : p.2 * width + p.1 = q.2 * width + q.1 := by omega
  obtain ⟨he1, he2⟩ := pixel_index_inj width p.1 p.2 q.1 q.2 hx1 hx2 ha
  exact Prod.ext he1 he2

theorem countP_eq_one_of_nodup_mem {a : Type} (pr : a → Bool) (p0 : a) :
    ∀ l : List a, l.Nodup → p0 ∈ l → (∀ q, pr q = true ↔ q = p0) →
      l.countP pr = 1 := by
  intro l
  induction l with
  | nil =>
      intro _ hm _
      exact absurd hm (List.not_mem_nil p0)
  | cons q rest ih =>
      intro hn hm hpr
      rcases List.nodup_cons.mp hn with ⟨hq, hrest⟩
      rcases List.mem_cons.mp hm with heq | hmrest
      · cases heq
        rw [List.countP_cons_of_pos _ _ ((hpr p0).mpr rfl)]
        have hz : rest.countP pr = 0 := by
          rw [List.countP_eq_zero]
          intro b hb hbp
          exact hq (((hpr b).mp hbp) ▸ hb)
        rw [hz]
      · have hqne : pr q = false := by
          rcases Bool.eq_false_or_eq_true (pr q) with h | h
          · exact absurd ((hpr q).mp h) (fun he => hq (he ▸ hmrest))
          · exact h
        rw [List.countP_cons_of_neg _ _ (by simp [hqne]), ih hrest hmrest hpr]

/-- Each in-range byte index is covered by exactly one launched thread, in
the wrap-free regime. -/
theorem countP_covers_eq_one (width height i : Nat)
    (hb : width * height * 3 < 2 ^ 31) (hi : i < width * height * 3) :
    (threadCoords width height).countP
      (fun p => decide (covers width height p.1 p.2 i)) = 1 := by
  obtain ⟨p0, hp0mem, hp0⟩ := exists_covering_thread width height i hb hi
  apply countP_eq_one_of_nodup_mem _ p0 _ (nodup_threadCoords width height) hp0mem
  intro q
  constructor
  · intro h
    exact covers_unique width height hb (of_decide_eq_true h) hp0
  · intro h
    subst h
    exact decide_eq_true hp0

/-! ### Dispatch-level lemmas -/

theorem runGrid_dOut_length (width height : Nat) (s : DevState) :
    (runGrid width height s).dOut.length = s.dOut.length :=
  foldl_kernel_dOut_length width height (threadCoords width height) s

theorem runGrid_dIn (width height : Nat) (s : DevState) :
    (runGrid width height s).dIn = s.dIn :=
  foldl_kernel_dIn width height (threadCoords width height) s

theorem dispatch_none_of_ge (input : List Nat) (width height : Nat)
    (hb : 2 ^ 31 ≤ width * height * 3) :
    dispatch input width height = none := by
  unfold dispatch processImage
  rw [if_neg (fun heq => absurd ((byteCountArg_eq_iff width height).mp heq) (by omega))]
  rfl

theorem dispatch_eq_some (input : List Nat) (width height : Nat)
    (hb : width * height * 3 < 2 ^ 31)
    (hlen : input.length = width * height * 3) :
    dispatch input width height = some input := by
  unfold dispatch processImage
  simp only
  rw [if_pos ((byteCountArg_eq_iff width height).mpr hb), byteCountArg_toNat hb]
  have hdout : (runGrid width height
      ⟨input.take (width * height * 3), List.replicate (width * height * 3) 0⟩).dOut.length
      = width * height * 3 := by
    rw [runGrid_dOut_length]
    simp
  rw [Option.map_some']
  refine congrArg some ?_
  rw [List.drop_of_length_le (by simp), List.append_nil,
    List.take_of_length_le (le_of_eq hdout)]
  apply List.ext_getElem
  · rw [hdout, hlen]
  · intro i h1 h2
    have hi : i < width * height * 3 := by rw [← hdout]; exact h1
    have hgd := runGrid_getD width height
      ⟨input.take (width * height * 3), List.replicate (width * height * 3) 0⟩ i hb hi
      (by simp)
    simp only [List.getD_eq_getElem?_getD] at hgd
    rw [List.getElem?_eq_getElem h1] at hgd
    have htake : (input.take (width * height * 3) : List Nat) = input :=
      List.take_of_length_le (le_of_eq hlen)
    conv at hgd => rhs; rw [htake]
    rw [List.getElem?_eq_getElem h2] at hgd
    simpa using hgd

/-! ### Trace lemmas -/

theorem trace_getElem?_add3 (width height k : Nat) :
    (dispatchTrace width height)[k + 3]? =
      ((threadCoords width height).map (fun p => DevOp.kernelExec p.1 p.2)
        ++ [DevOp.copyD2H, DevOp.freeIn, DevOp.freeOut])[k]? := by
  unfold dispatchTrace
  rw [List.append_assoc]
  rw [List.getElem?_append_right
    (show ([DevOp.mallocIn, DevOp.mallocOut, DevOp.copyH2D] : List DevOp).length ≤ k + 3 by
      simp)]
  simp

theorem trace_at_copyH2D (width height : Nat) :
    (dispatchTrace width height)[2]? = some DevOp.copyH2D := by
  unfold dispatchTrace
  rw [List.append_assoc]
  rw [List.getElem?_append_left
    (show (2 : Nat) < ([DevOp.mallocIn, DevOp.mallocOut, DevOp.copyH2D] : List DevOp).length by
      simp)]
  decide

theorem trace_at_copyD2H (width height : Nat) :
    (dispatchTrace width height)[(threadCoords width height).length + 3]? =
      some DevOp.copyD2H := by
  rw [trace_getElem?_add3, List.getElem?_append_right (by simp)]
  simp

theorem trace_at_freeIn (width height : Nat) :
    (dispatchTrace width height)[(threadCoords width height).length + 4]? =
      some DevOp.freeIn := by
  have h1 := trace_getElem?_add3 width height ((threadCoords width height).length + 1)
  rw [show (threadCoords width height).length + 1 + 3
      = (threadCoords width height).length + 4 from rfl] at h1
  rw [h1, List.getElem?_append_right (by simp)]
  simp

theorem trace_at_freeOut (width height : Nat) :
    (dispatchTrace width height)[(threadCoords width height).length + 5]? =
      some DevOp.freeOut := by
  have h1 := trace_getElem?_add3 width height ((threadCoords width height).length + 2)
  rw [show (threadCoords width height).length + 2 + 3
      = (threadCoords width height).length + 5 from rfl] at h1
  rw [h1, List.getElem?_append_right (by simp)]
  simp

theorem trace_char (width height i : Nat) (op : DevOp)
    (hop : (dispatchTrace width height)[i]? = some op) :
    (i = 0 ∧ op = DevOp.mallocIn) ∨ (i = 1 ∧ op = DevOp.mallocOut) ∨
    (i = 2 ∧ op = DevOp.copyH2D) ∨
    (∃ x y, 3 ≤ i ∧ i < (threadCoords width height).length + 3 ∧
      op = DevOp.kernelExec x y) ∨
    (i = (threadCoords width height).length + 3 ∧ op = DevOp.copyD2H) ∨
    (i = (threadCoords width height).length + 4 ∧ op = DevOp.freeIn) ∨
    (i = (threadCoords width height).length + 5 ∧ op = DevOp.freeOut) := by
  match i with
  | 0 =>
      simp only [dispatchTrace, List.cons_append, List.nil_append,
        List.getElem?_cons_zero, Option.some.injEq] at hop
      exact Or.inl ⟨rfl, hop.symm⟩
  | 1 =>
      simp only [dispatchTrace, List.cons_append, List.nil_append,
        List.getElem?_cons_succ, List.getElem?_cons_zero, Option.some.injEq] at hop
      exact Or.inr (Or.inl ⟨rfl, hop.symm⟩)
  | 2 =>
      simp only [dispatchTrace, List.cons_append, List.nil_append,
        List.getElem?_cons_succ, List.getElem?_cons_zero, Option.some.injEq] at hop
      exact Or.inr (Or.inr (Or.inl ⟨rfl, hop.symm⟩))
  | (k + 3) =>
      rw [trace_getElem?_add3] at hop
      rcases Nat.lt_or_ge k (threadCoords width height).length with hk | hk
      · rw [List.getElem?_append_left (by simpa using hk)] at hop
        rw [List.getElem?_map, List.getElem?_eq_getElem hk] at hop
        simp only [Option.map_some', Option.some.injEq] at hop
        refine Or.inr (Or.inr (Or.inr (Or.inl
          ⟨((threadCoords width height)[k]).1, ((threadCoords width height)[k]).2,
            by omega, by omega, hop.symm⟩)))
      · rw [List.getElem?_append_right (by simpa using hk)] at hop
        simp only [List.length_map] at hop
        rcases hsub : k - (threadCoords width height).length with _ | _ | _ | m
        · rw [hsub] at hop
          simp only [List.getElem?_cons_zero, Option.some.injEq] at hop
          exact Or.inr (Or.inr (Or.inr (Or.inr (Or.inl ⟨by omega, hop.symm⟩))))
        · rw [hsub] at hop
          simp only [List.getElem?_cons_succ, List.getElem?_cons_zero,
            Option.some.injEq] at hop
          exact Or.inr (Or.inr (Or.inr (Or.inr (Or.inr (Or.inl ⟨by omega, hop.symm⟩)))))
        · rw [hsub] at hop
          simp only [List.getElem?_cons_succ, List.getElem?_cons_zero,
            Option.some.injEq] at hop
          exact Or.inr (Or.inr (Or.inr (Or.inr (Or.inr (Or.inr ⟨by omega, hop.symm⟩)))))
        · rw [hsub] at hop
          simp at hop

/-! ### Statement-list and count lemmas -/

theorem runStmts_map_unchecked (outcome : Nat → Bool) :
    ∀ (l : List DevOp) (k : Nat), runStmts outcome k (l.map Stmt.unchecked) = l := by
  intro l
  induction l with
  | nil => intro k; rfl
  | cons op rest ih =>
      intro k
      simp only [List.map_cons, runStmts]
      rw [ih]

theorem count_kernel_ops_zero (width height : Nat) (op : DevOp)
    (h : ∀ x y, op ≠ DevOp.kernelExec x y) :
    ((threadCoords width height).map (fun p => DevOp.kernelExec p.1 p.2)).count op = 0 := by
  rw [List.count_eq_zero]
  intro hmem
  obtain ⟨p, -, hp⟩ := List.mem_map.mp hmem
  exact h p.1 p.2 hp.symm

theorem count_trace (width height : Nat) (op : DevOp)
    (h : ∀ x y, op ≠ DevOp.kernelExec x y) :
    (dispatchTrace width height).count op
      = ([DevOp.mallocIn, DevOp.mallocOut, DevOp.copyH2D] : List DevOp).count op
        + ([DevOp.copyD2H, DevOp.freeIn, DevOp.freeOut] : List DevOp).count op := by
  unfold dispatchTrace
  rw [List.count_append, List.count_append, count_kernel_ops_zero width height op h]
  omega

theorem mallocIn_only_at_zero (width height i : Nat)
    (hi : (dispatchTrace width height)[i]? = some DevOp.mallocIn) : i = 0 := by
  rcases trace_char width height i _ hi with
    ⟨h0, -⟩ | ⟨-, he⟩ | ⟨-, he⟩ | ⟨x, y, -, -, he⟩ | ⟨-, he⟩ | ⟨-, he⟩ | ⟨-, he⟩
  · exact h0
  · cases he
  · cases he
  · cases he
  · cases he
  · cases he
  · cases he

theorem mallocOut_only_at_one (width height i : Nat)
    (hi : (dispatchTrace width height)[i]? = some DevOp.mallocOut) : i = 1 := by
  rcases trace_char width height i _ hi with
    ⟨-, he⟩ | ⟨h1, -⟩ | ⟨-, he⟩ | ⟨x, y, -, -, he⟩ | ⟨-, he⟩ | ⟨-, he⟩ | ⟨-, he⟩
  · cases he
  · exact h1
  · cases he
  · cases he
  · cases he
  · cases he
  · cases he

theorem freeIn_only_at (width height i : Nat)
    (hi : (dispatchTrace width height)[i]? = some DevOp.freeIn) :
    i = (threadCoords width height).length + 4 := by
  rcases trace_char width height i _ hi with
    ⟨-, he⟩ | ⟨-, he⟩ | ⟨-, he⟩ | ⟨x, y, -, -, he⟩ | ⟨-, he⟩ | ⟨h4, -⟩ | ⟨-, he⟩
  · cases he
  · cases he
  · cases he
  · cases he
  · cases he
  · exact h4
  · cases he

theorem freeOut_only_at (width height i : Nat)
    (hi : (dispatchTrace width height)[i]? = some DevOp.freeOut) :
    i = (threadCoords width height).length + 5 := by
  rcases trace_char width height i _ hi with
    ⟨-, he⟩ | ⟨-, he⟩ | ⟨-, he⟩ | ⟨x, y, -, -, he⟩ | ⟨-, he⟩ | ⟨-, he⟩ | ⟨h5, -⟩
  · cases he
  · cases he
  · cases he
  · cases he
  · cases he
  · cases he
  · exact h5

/-! ### Claim theorems -/

/-- C1 counterexample: at width = 1024, height = 699051 (byte count
2147484672, at least 2 ^ 31) the preconditions of the claim hold, yet the
source passes a wrapped negative byte count to allocation and both copies
and the kernel offsets overflow, so the call has no defined result — in
particular the output is not the input. -/
theorem C1_counterexample :
    (0 : Nat) < 1024 ∧ (0 : Nat) < 699051
      ∧ (List.replicate (1024 * 699051 * 3) 1).length = 1024 * 699051 * 3
      ∧ dispatch (List.replicate (1024 * 699051 * 3) 1) 1024 699051
          ≠ some (List.replicate (1024 * 699051 * 3) 1) := by
  refine ⟨by norm_num, by norm_num, by simp only [List.length_replicate], ?_⟩
  rw [dispatch_none_of_ge _ _ _ (by norm_num)]
  exact fun h => Option.noConfusion h

/-- C1 (amended): for every width > 0, height > 0 and input buffer of
exactly width * height * 3 bytes, with the byte count below 2 ^ 31 so
that the `int` arithmetic of the source does not wrap, `dispatch`
produces an output byte-for-byte equal to the input (identity transform);
in particular the 2 x 2 RGB input [255,0,0, 0,255,0, 0,0,255, 255,255,255]
yields the identical 12-byte sequence. -/
theorem C1_dispatch_identity :
    (∀ (width height : Nat) (input : List Nat), 0 < width → 0 < height →
      input.length = width * height * 3 → width * height * 3 < 2 ^ 31 →
      dispatch input width height = some input)
    ∧ dispatch [255, 0, 0, 0, 255, 0, 0, 0, 255, 255, 255, 255] 2 2
        = some [255, 0, 0, 0, 255, 0, 0, 0, 255, 255, 255, 255] :=
  ⟨fun width height input _ _ hlen hb => dispatch_eq_some input width height hb hlen,
    dispatch_eq_some _ 2 2 (by norm_num) (by norm_num)⟩

theorem C1_dispatch_identity_witness :
    (0 : Nat) < 1 ∧ ([7, 8, 9] : List Nat).length = 1 * 1 * 3 ∧ 1 * 1 * 3 < 2 ^ 31 ∧
      dispatch [7, 8, 9] 1 1 = some [7, 8, 9] :=
  ⟨by norm_num, by norm_num, by norm_num,
    C1_dispatch_identity.1 1 1 [7, 8, 9] (by norm_num) (by norm_num) (by norm_num)
      (by norm_num)⟩

/-- C2 counterexample: at width = 1024, height = 699051 the in-range byte
index 2147484669 (which is at least 2 ^ 31) is transformed by no thread of
the grid at all — its own thread computes a wrapped negative `int` offset —
so the exactly-once coverage fails. -/
theorem C2_counterexample :
    (2147484669 : Nat) < 1024 * 699051 * 3
      ∧ (threadCoords 1024 699051).countP
          (fun p => decide (covers 1024 699051 p.1 p.2 2147484669)) = 0 := by
  refine ⟨by norm_num, ?_⟩
  rw [List.countP_eq_zero]
  intro p hp hcov
  have h1 := covers_lt_two_pow (of_decide_eq_true hcov)
  norm_num at h1

/-- C2 (amended): when the byte count width * height * 3 is below 2 ^ 31,
so that the kernel offset arithmetic does not wrap, the launch partitions
the coordinate space into 16 x 16 tiles with grid dimensions
(ceil(width/16), ceil(height/16)) — characterised by
`width ≤ gridX * 16 < width + 16` and likewise for the height — and under
this grid every in-range pixel byte is transformed by exactly one thread,
including when width or height is not a multiple of 16. -/
theorem C2_grid_partition :
    ∀ width height i : Nat, width * height * 3 < 2 ^ 31 →
      i < width * height * 3 →
      (threadCoords width height).countP
          (fun p => decide (covers width height p.1 p.2 i)) = 1
      ∧ width ≤ (gridDim width height).1 * 16
      ∧ (gridDim width height).1 * 16 < width + 16
      ∧ height ≤ (gridDim width height).2 * 16
      ∧ (gridDim width height).2 * 16 < height + 16 :=
  fun width height i hb hi =>
    ⟨countP_covers_eq_one width height i hb hi, le_ceilDiv16_mul width,
      ceilDiv16_mul_lt width, le_ceilDiv16_mul height, ceilDiv16_mul_lt height⟩

theorem C2_grid_partition_witness :
    17 * 3 * 3 < 2 ^ 31 ∧ (0 : Nat) < 17 * 3 * 3 ∧
      ((threadCoords 17 3).countP (fun p => decide (covers 17 3 p.1 p.2 0)) = 1
        ∧ 17 ≤ (gridDim 17 3).1 * 16 ∧ (gridDim 17 3).1 * 16 < 17 + 16
        ∧ 3 ≤ (gridDim 17 3).2 * 16 ∧ (gridDim 17 3).2 * 16 < 3 + 16) :=
  ⟨by norm_num, by norm_num, C2_grid_partition 17 3 0 (by norm_num) (by norm_num)⟩

/-- C3 counterexample: the thread at global coordinates (1023, 699050) of
the launch grid for width = 1024, height = 699051 passes the guard, yet
its `int`-evaluated channel offset wraps to the negative value
-2147482627: an access outside every buffer, refuting that all accessed
indices lie below width * height * 3. -/
theorem C3_counterexample :
    ((1023, 699050) : Nat × Nat) ∈ threadCoords 1024 699051
      ∧ offsetC 1024 1023 699050 0 ∈ accessedOffsets 1024 699051 1023 699050
      ∧ offsetC 1024 1023 699050 0 < 0 := by
  refine ⟨?_, ?_, ?_⟩
  · rw [mem_threadCoords]
    exact ⟨by decide, by decide⟩
  · unfold accessedOffsets
    rw [if_pos (by norm_num)]
    simp
  · decide

/-- C3 (amended): a thread whose coordinates fail the guard (x ≥ width or
y ≥ height) performs no operation on device memory, and — when the byte
count width * height * 3 is below 2 ^ 31, so the offset arithmetic does
not wrap — every offset a guarded thread accesses is non-negative and
strictly below width * height * 3, so no access is out of bounds on
buffers of that size. -/
theorem C3_guard_safety :
    ∀ width height x y : Nat,
      (∀ s : DevState, ¬ (x < width ∧ y < height) →
        processImageKernel width height x y s = s)
      ∧ (width * height * 3 < 2 ^ 31 →
          ∀ o ∈ accessedOffsets width height x y,
            0 ≤ o ∧ o < ((width * height * 3 : Nat) : Int)) := by
  intro width height x y
  refine ⟨fun s hg => kernel_guard_ge width height x y s hg, ?_⟩
  intro hb o ho
  unfold accessedOffsets at ho
  split at ho
  · rename_i hg
    have hlt : ∀ c : Nat, c < 3 →
        0 ≤ offsetC width x y c ∧ offsetC width x y c < ((width * height * 3 : Nat) : Int) := by
      intro c hc
      rw [offsetC_eq_of_lt hb hg.1 hg.2 hc]
      constructor
      · exact Int.ofNat_nonneg _
      · exact_mod_cast pixel_offset_lt width height x y c hg.1 hg.2 hc
    simp only [List.mem_cons, List.not_mem_nil, or_false] at ho
    rcases ho with h | h | h
    · rw [h]; exact hlt 0 (by norm_num)
    · rw [h]; exact hlt 1 (by norm_num)
    · rw [h]; exact hlt 2 (by norm_num)
  · exact absurd ho (List.not_mem_nil o)

theorem C3_guard_safety_witness :
    processImageKernel 2 2 5 0 ⟨[1], [2]⟩ = ⟨[1], [2]⟩
      ∧ (0 ≤ offsetC 2 0 1 1 ∧ offsetC 2 0 1 1 < ((2 * 2 * 3 : Nat) : Int)) :=
  ⟨(C3_guard_safety 2 2 5 0).1 ⟨[1], [2]⟩ (by decide),
    (C3_guard_safety 2 2 0 1).2 (by norm_num) (offsetC 2 0 1 1) (by decide)⟩

/-- C4: in the device-operation trace of one dispatch, every kernel
execution occurs strictly after the host-to-device input copy and strictly
before the device-to-host output copy: the input copy completes before any
per-pixel transform and all transforms complete before the output copy, so
no transform can observe a partially written device input buffer. -/
theorem C4_ordering :
    ∀ width height i x y : Nat,
      (dispatchTrace width height)[i]? = some (DevOp.kernelExec x y) →
      (∃ jc, jc < i ∧ (dispatchTrace width height)[jc]? = some DevOp.copyH2D)
      ∧ (∃ jd, i < jd ∧ (dispatchTrace width height)[jd]? = some DevOp.copyD2H) := by
  intro width height i x y hop
  rcases trace_char width height i _ hop with
    ⟨-, he⟩ | ⟨-, he⟩ | ⟨-, he⟩ | ⟨x2, y2, h3, hlt, he⟩ | ⟨-, he⟩ | ⟨-, he⟩ | ⟨-, he⟩
  · cases he
  · cases he
  · cases he
  · exact ⟨⟨2, by omega, trace_at_copyH2D width height⟩,
      ⟨(threadCoords width height).length + 3, by omega, trace_at_copyD2H width height⟩⟩
  · cases he
  · cases he
  · cases he

set_option maxRecDepth 20000 in
theorem C4_ordering_witness :
    (∃ jc, jc < 3 ∧ (dispatchTrace 1 1)[jc]? = some DevOp.copyH2D)
    ∧ (∃ jd, 3 < jd ∧ (dispatchTrace 1 1)[jd]? = some DevOp.copyD2H) :=
  C4_ordering 1 1 3 0 0 (by decide)

/-- C5: every dispatch trace allocates each device buffer exactly once and
frees it exactly once, and each free occurs strictly after the matching
allocation; since the frees belong to the trace of the call itself, no
device allocation outlives the call on its (single) exit path. -/
theorem C5_scoped_release :
    ∀ width height : Nat,
      ((dispatchTrace width height).count DevOp.mallocIn = 1
        ∧ (dispatchTrace width height).count DevOp.freeIn = 1
        ∧ (dispatchTrace width height).count DevOp.mallocOut = 1
        ∧ (dispatchTrace width height).count DevOp.freeOut = 1)
      ∧ (∀ i j : Nat, (dispatchTrace width height)[i]? = some DevOp.mallocIn →
          (dispatchTrace width height)[j]? = some DevOp.freeIn → i < j)
      ∧ (∀ i j : Nat, (dispatchTrace width height)[i]? = some DevOp.mallocOut →
          (dispatchTrace width height)[j]? = some DevOp.freeOut → i < j) := by
  intro width height
  refine ⟨⟨?_, ?_, ?_, ?_⟩, ?_, ?_⟩
  · rw [count_trace width height _ (by intro x y he; cases he)]
    decide
  · rw [count_trace width height _ (by intro x y he; cases he)]
    decide
  · rw [count_trace width height _ (by intro x y he; cases he)]
    decide
  · rw [count_trace width height _ (by intro x y he; cases he)]
    decide
  · intro i j hi hj
    have h1 := mallocIn_only_at_zero width height i hi
    have h2 := freeIn_only_at width height j hj
    omega
  · intro i j hi hj
    have h1 := mallocOut_only_at_one width height i hi
    have h2 := freeOut_only_at width height j hj
    omega

set_option maxRecDepth 20000 in
theorem C5_scoped_release_witness :
    (dispatchTrace 1 1).count DevOp.mallocIn = 1 ∧ (0 : Nat) < 260 :=
  ⟨(C5_scoped_release 1 1).1.1,
    (C5_scoped_release 1 1).2.1 0 260 (by decide) (by decide)⟩

/-- C6: the dispatcher performs no error checking: every device call is
issued with its status discarded, so for every assignment of success or
failure to the device calls the executed operations are exactly the full
dispatch trace — a failure never alters control flow and execution
proceeds through all remaining steps. -/
theorem C6_no_error_checking :
    ∀ (width height : Nat) (outcome : Nat → Bool) (k : Nat),
      runStmts outcome k (processImageProg width height)
        = dispatchTrace width height :=
  fun width height outcome k =>
    runStmts_map_unchecked outcome (dispatchTrace width height) k

/-- C7: only the output buffer is written in place: whenever the call has
a defined result, the caller-visible input buffer is unchanged, and the
kernel launch never writes the device input buffer; the dispatcher holds
no state beyond the transient device buffers of the call. -/
theorem C7_frame :
    ∀ (width height : Nat) (s : HostState) (d : DevState),
      (∀ t : HostState, processImage width height s = some t → t.input = s.input)
      ∧ (runGrid width height d).dIn = d.dIn := by
  intro width height s d
  refine ⟨?_, runGrid_dIn width height d⟩
  intro t ht
  unfold processImage at ht
  simp only [] at ht
  split at ht
  · cases Option.some.inj ht
    rfl
  · cases ht

set_option maxRecDepth 20000 in
theorem C7_frame_witness :
    (HostState.mk [1, 2, 3] [1, 2, 3]).input = ([1, 2, 3] : List Nat) :=
  (C7_frame 1 1 ⟨[1, 2, 3], [0, 0, 0]⟩ ⟨[], []⟩).1 ⟨[1, 2, 3], [1, 2, 3]⟩ (by decide)

/-- C8 counterexample: at width = 1024, height = 699051 the preconditions
of the claim hold, yet the first application of `dispatch` already has no
defined result (the `int` byte count wraps negative), so applying
`dispatch` twice does not yield the same output as applying it once —
there is no output at all. -/
theorem C8_counterexample :
    (0 : Nat) < 1024 ∧ (0 : Nat) < 699051
      ∧ (List.replicate (1024 * 699051 * 3) 1).length = 1024 * 699051 * 3
      ∧ ¬ ∃ out : List Nat,
          dispatch (List.replicate (1024 * 699051 * 3) 1) 1024 699051 = some out
          ∧ dispatch out 1024 699051 = some out := by
  refine ⟨by norm_num, by norm_num, by simp only [List.length_replicate], ?_⟩
  rintro ⟨out, hout, -⟩
  rw [dispatch_none_of_ge _ _ _ (by norm_num)] at hout
  exact Option.noConfusion hout

/-- C8 (amended): when the byte count width * height * 3 is below 2 ^ 31,
so the source arithmetic does not wrap, applying `dispatch` twice yields
the same defined output as applying it once (idempotence of the identity
transform): the once-applied output exists, dispatching it again returns
it unchanged, and the composed dispatch equals the single dispatch. -/
theorem C8_idempotent :
    ∀ (width height : Nat) (input : List Nat), 0 < width → 0 < height →
      input.length = width * height * 3 → width * height * 3 < 2 ^ 31 →
      (∃ out : List Nat, dispatch input width height = some out
        ∧ dispatch out width height = some out)
      ∧ (dispatch input width height).bind (fun o => dispatch o width height)
          = dispatch input width height := by
  intro width height input _ _ hlen hb
  have hid := dispatch_eq_some input width height hb hlen
  refine ⟨⟨input, hid, hid⟩, ?_⟩
  rw [hid, Option.some_bind, hid]

theorem C8_idempotent_witness :
    (0 : Nat) < 1 ∧ 1 * 1 * 3 < 2 ^ 31 ∧
      ∃ out : List Nat, dispatch [7, 8, 9] 1 1 = some out
        ∧ dispatch out 1 1 = some out :=
  ⟨by norm_num, by norm_num,
    (C8_idempotent 1 1 [7, 8, 9] (by norm_num) (by norm_num) (by norm_num)
      (by norm_num)).1⟩

/-- C9 counterexample: at width = 0, height = 0 the dispatch does not
reject the call — its very first trace operation is a device allocation,
refuting that an InvalidDimensions rejection happens before any device
allocation is attempted. -/
theorem C9_counterexample :
    (dispatchTrace 0 0)[0]? = some DevOp.mallocIn
      ∧ DevOp.mallocIn ∈ dispatchTrace 0 0 := by
  decide

/-- C9 amended: the reference dispatch performs no dimension validation:
for width = 0 or height = 0 (and in fact for all dimensions) it still
attempts both device allocations as its first two operations and proceeds
through the copies and frees; no InvalidDimensions rejection exists in the
code (that taxonomy is only a recommendation of the spec). -/
theorem C9_no_validation :
    ∀ width height : Nat, width = 0 ∨ height = 0 →
      (dispatchTrace width height)[0]? = some DevOp.mallocIn
      ∧ (dispatchTrace width height)[1]? = some DevOp.mallocOut
      ∧ DevOp.copyH2D ∈ dispatchTrace width height
      ∧ DevOp.copyD2H ∈ dispatchTrace width height
      ∧ DevOp.freeIn ∈ dispatchTrace width height
      ∧ DevOp.freeOut ∈ dispatchTrace width height := by
  intro width height _
  refine ⟨?_, ?_, ?_, ?_, ?_, ?_⟩ <;> simp [dispatchTrace]

theorem C9_no_validation_witness :
    (dispatchTrace 0 5)[0]? = some DevOp.mallocIn
      ∧ (dispatchTrace 0 5)[1]? = some DevOp.mallocOut
      ∧ DevOp.copyH2D ∈ dispatchTrace 0 5
      ∧ DevOp.copyD2H ∈ dispatchTrace 0 5
      ∧ DevOp.freeIn ∈ dispatchTrace 0 5
      ∧ DevOp.freeOut ∈ dispatchTrace 0 5 :=
  C9_no_validation 0 5 (Or.inl rfl)

/-- C10: the byte count passed to every allocation and copy is
width * height * 3 evaluated in 32-bit signed int arithmetic: it is
congruent to the mathematical product modulo 2^32 and lies in
[-2^31, 2^31), and whenever the mathematical product is at least 2^31 the
wrapped value differs from it, so allocation and transfer sizes silently
diverge from width * height * 3 for large images. -/
theorem C10_byte_count_wraps :
    ∀ width height : Nat,
      byteCountArg width height % 2 ^ 32
          = ((width * height * 3 : Nat) : Int) % 2 ^ 32
      ∧ -(2 ^ 31) ≤ byteCountArg width height
      ∧ byteCountArg width height < 2 ^ 31
      ∧ (2 ^ 31 ≤ width * height * 3 →
          byteCountArg width height ≠ ((width * height * 3 : Nat) : Int)) := by
  intro width height
  unfold byteCountArg int32
  split
  · exact ⟨by omega, by omega, by omega, fun hge => by omega⟩
  · exact ⟨by omega, by omega, by omega, fun hge => by omega⟩

theorem C10_byte_count_wraps_witness :
    2 ^ 31 ≤ 1024 * 699051 * 3
      ∧ byteCountArg 1024 699051 ≠ ((1024 * 699051 * 3 : Nat) : Int) :=
  ⟨by norm_num, (C10_byte_count_wraps 1024 699051).2.2.2 (by norm_num)⟩
